import Mathlib

/-!
Verification development for the handel service-composition engine.

Strings are modelled as `List Char` (Rust `String` values; the byte-wise
lexicographic order on UTF-8 agrees with the codepoint-wise order used here).
Hash maps are modelled as association lists with insert-or-overwrite
semantics; iteration order of a map never matters to the statements proved
below (conflict reports are treated as sets with multiplicities, and the
final service list is sorted).  The unanchored regular-expression searches of
`templates.rs` and `config.rs` are translated into explicit leftmost-match
searches over character lists.
-/

namespace Handel

/-- Characters of a string literal, the `List Char` form used throughout. -/
def chars (s : String) : List Char :=
  s.data

/-- Decidable equality of `Except` values, used to evaluate the model on
concrete inputs. -/
instance {ε α : Type} [DecidableEq ε] [DecidableEq α] : DecidableEq (Except ε α) := fun a b =>
  match a, b with
  | Except.ok x, Except.ok y =>
    if h : x = y then Decidable.isTrue (congrArg Except.ok h)
    else Decidable.isFalse (fun hh => h (Except.ok.inj hh))
  | Except.ok _, Except.error _ => Decidable.isFalse (fun hh => Except.noConfusion hh)
  | Except.error _, Except.ok _ => Decidable.isFalse (fun hh => Except.noConfusion hh)
  | Except.error e, Except.error f =>
    if h : e = f then Decidable.isTrue (congrArg Except.error h)
    else Decidable.isFalse (fun hh => h (Except.error.inj hh))

/-- Lookup in an association list keyed by strings: the first entry whose key
equals `k` (models `HashMap::get`, every map below keeps keys unique). -/
def alookup {α : Type} : List (List Char × α) → List Char → Option α
  | [], _ => none
  | (k', v) :: rest, k => if k' = k then some v else alookup rest k

/-- Insert-or-overwrite for an association list (models `HashMap::insert`):
an existing key keeps its position with the new value, a new key is
appended. -/
def insertA {α : Type} : List (List Char × α) → List Char → α → List (List Char × α)
  | [], k, v => [(k, v)]
  | (k', v') :: rest, k, v =>
    if k' = k then (k, v) :: rest else (k', v') :: insertA rest k v

/-- Split a character list at the first occurrence of `c`: the part strictly
before it and the part strictly after it, or `none` when `c` does not
occur. -/
def splitFirst (c : Char) : List Char → Option (List Char × List Char)
  | [] => none
  | x :: xs =>
    if x = c then some ([], xs)
    else (splitFirst c xs).map (fun pr => (x :: pr.1, pr.2))

/-- Model of `templates.rs::TemplateError` (the variants reachable from the
pure resolution core; the file-system variants carry no resolution logic). -/
inductive TemplateError : Type where
  | RepositoryFormat (input : List Char)
  | ServiceName (input : List Char)
  deriving DecidableEq, Repr

/-- Model of `templates.rs::ImageVersion`: a parsed container image
reference. -/
structure ImageVersion : Type where
  name : List Char
  version : Option (List Char)
  repository : Option (List Char)
  deriving DecidableEq, Repr

/-- The `svc`/`version` groups of the image regex matched against `l` (the
part after the optional `repository/`): `svc` is `[^:]+` matched greedily,
then `(?::(?P<version>.+))?` where `.` excludes the newline. `l` is known to
start with a non-`:` character at every call site. -/
def svcVer (l : List Char) : List Char × Option (List Char) :=
  let svc := l.takeWhile (fun c => c ≠ ':')
  match l.dropWhile (fun c => c ≠ ':') with
  | ':' :: v =>
    match v with
    | [] => (svc, none)
    | c :: _ =>
      if c = '\n' then (svc, none)
      else (svc, some (v.takeWhile (fun ch => ch ≠ '\n')))
  | _ => (svc, none)

/-- The image regex matched at this exact position with the optional
repository group skipped: `svc` must start with a non-`:` character. -/
def matchNoRepo : List Char → Option ImageVersion
  | [] => none
  | c :: rest =>
    if c = ':' then none
    else
      let sv := svcVer (c :: rest)
      some ⟨sv.1, sv.2, none⟩

/-- The image regex `(?:(?P<repo>[^/]+)/)?(?P<svc>[^:]+)(?::(?P<version>.+))?`
matched at this exact position.  The repository branch is preferred: it
succeeds exactly when a `/` occurs after at least one character and is
followed by a non-`:` character (backtracking cannot shorten `[^/]+`, whose
match must end at the first `/`). -/
def matchAt (l : List Char) : Option ImageVersion :=
  match splitFirst '/' l with
  | some (repo, c :: rest) =>
    if repo ≠ [] ∧ c ≠ ':' then
      let sv := svcVer (c :: rest)
      some ⟨sv.1, sv.2, some repo⟩
    else matchNoRepo l
  | _ => matchNoRepo l

/-- Leftmost match of the image regex: the first position whose suffix
matches (models the unanchored `Regex::captures` search). -/
def findMatch : List Char → Option ImageVersion
  | [] => none
  | c :: rest =>
    match matchAt (c :: rest) with
    | some iv => some iv
    | none => findMatch rest

/-- Model of `ImageVersion::new` (templates.rs).  In every successful match
the mandatory `svc` group is present, so the source's `ServiceName` branch is
unreachable and the only error is `RepositoryFormat` (no match at all). -/
def ImageVersion.new (image_str : List Char) : Except TemplateError ImageVersion :=
  match findMatch image_str with
  | some iv => Except.ok iv
  | none => Except.error (TemplateError.RepositoryFormat image_str)

/-- The optional `repository/` part of a rendered image string (the first
`match` of `ImageVersion::get`). -/
def repoPrefix : Option (List Char) → List Char
  | some r => r ++ ['/']
  | none => []

/-- The optional `:version` part of a rendered image string (the second
`match` of `ImageVersion::get`). -/
def verSuffix : Option (List Char) → List Char
  | some v => ':' :: v
  | none => []

/-- Model of `ImageVersion::get`: render `[repository/]name[:version]`. -/
def ImageVersion.get (iv : ImageVersion) : List Char :=
  repoPrefix iv.repository ++ iv.name ++ verSuffix iv.version

/-- Model of `ImageVersion::get_without_version`: render `[repository/]name`. -/
def ImageVersion.get_without_version (iv : ImageVersion) : List Char :=
  repoPrefix iv.repository ++ iv.name

/-- Model of `ImageVersion::get_name`. -/
def ImageVersion.get_name (iv : ImageVersion) : List Char :=
  iv.name

/-- Model of `ImageVersion::get_version`. -/
def ImageVersion.get_version (iv : ImageVersion) : Option (List Char) :=
  iv.version

example :
    ImageVersion.new (chars ("wurstmeister/kafka:2.12-2.4.0")) =
      Except.ok ⟨chars ("kafka"), some (chars ("2.12-2.4.0")), some (chars ("wurstmeister"))⟩ := by
  decide

example :
    ImageVersion.new (chars ("memcached:1.6.7")) =
      Except.ok ⟨chars ("memcached"), some (chars ("1.6.7")), none⟩ := by
  decide

example :
    ImageVersion.new (chars ("mailhog/mailhog")) =
      Except.ok ⟨chars ("mailhog"), none, some (chars ("mailhog"))⟩ := by
  decide

example :
    ImageVersion.new (chars (":1.0")) = Except.ok ⟨chars ("1.0"), none, none⟩ := by
  decide

example :
    ImageVersion.new (chars ("a:b/c:")) =
      Except.ok ⟨chars ("c"), none, some (chars ("a:b"))⟩ := by
  decide

example :
    ImageVersion.new (chars (":")) = Except.error (TemplateError.RepositoryFormat (chars (":"))) := by
  decide

/-- Model of `PortMapping` (templates.rs): `source` is absent for a
single-number token. -/
structure PortMapping : Type where
  source : Option Nat
  target : Nat
  deriving DecidableEq, Repr

/-- Decimal value of a digit string (the value `str::parse` computes when it
succeeds). -/
def digitsVal (l : List Char) : Nat :=
  l.foldl (fun acc c => acc * 10 + (c.toNat - 48)) 0

/-- Model of `"<digits>".parse::<u16>().unwrap_or(0)`: the decimal value, or
`0` when it exceeds `u16::MAX`. -/
def parse_u16_or_zero (l : List Char) : Nat :=
  if digitsVal l ≤ 65535 then digitsVal l else 0

/-- The port regex `(?P<a>\d{1,5})(?::(?P<b>\d{1,5}))?` matched at this exact
position: group `a` is the first at most five digits of the digit run here;
the optional group needs a `:` directly after `a` followed by a digit. -/
def pmMatchHere (l : List Char) : Option (List Char × Option (List Char)) :=
  match l with
  | [] => none
  | c :: _ =>
    if c.isDigit then
      let a := (l.takeWhile Char.isDigit).take 5
      match l.drop a.length with
      | ':' :: r2 =>
        match r2 with
        | d :: _ =>
          if d.isDigit then some (a, some ((r2.takeWhile Char.isDigit).take 5))
          else some (a, none)
        | [] => some (a, none)
      | _ => some (a, none)
    else none

/-- Leftmost match of the port regex (unanchored `captures` search). -/
def pmFind : List Char → Option (List Char × Option (List Char))
  | [] => none
  | c :: rest =>
    match pmMatchHere (c :: rest) with
    | some ab => some ab
    | none => pmFind rest

/-- Model of `PortMapping::deserialize` (templates.rs).  The error payload is
the custom message; the `"No port "` branch is unreachable because group `a`
is present in every match. -/
def PortMapping.deserialize (s : List Char) : Except (List Char) PortMapping :=
  match pmFind s with
  | none => Except.error (chars ("Port mapping unexpected"))
  | some (a, b) =>
    let port_a := parse_u16_or_zero a
    match b with
    | some bs => Except.ok ⟨some port_a, parse_u16_or_zero bs⟩
    | none => Except.ok ⟨none, port_a⟩

/-- A Rust panic, the observable outcome of `Option::unwrap`/`Result::unwrap`
on the wrong variant. -/
inductive RustPanic : Type where
  | unwrapFailed
  deriving DecidableEq, Repr

/-- The port-range regex `(?P<p1>[1-9]\d{0,4})-(?P<p2>[1-9]\d{0,4})` matched
at this exact position: `p1` must be the whole digit run here (at most five
digits, a shorter prefix would be followed by a digit, not `-`), then `-`,
then `p2` is the first at most five digits of a run starting with `1`-`9`. -/
def prMatchHere (l : List Char) : Option (List Char × List Char) :=
  match l with
  | [] => none
  | c :: _ =>
    if c.isDigit && c != '0' then
      let run := l.takeWhile Char.isDigit
      if run.length ≤ 5 then
        match l.drop run.length with
        | '-' :: r2 =>
          match r2 with
          | d :: _ =>
            if d.isDigit && d != '0' then some (run, (r2.takeWhile Char.isDigit).take 5)
            else none
          | [] => none
        | _ => none
      else none
    else none

/-- Leftmost match of the port-range regex. -/
def prFind : List Char → Option (List Char × List Char)
  | [] => none
  | c :: rest =>
    match prMatchHere (c :: rest) with
    | some ab => some ab
    | none => prFind rest

/-- Model of `de_port_range` (config.rs).  Both captures go through
`parse::<u16>().unwrap()`, so a captured numeral above `u16::MAX` panics;
`p1`/`p2` are swapped when inverted; no match yields `None`. -/
def de_port_range (s : List Char) : Except RustPanic (Option (Nat × Nat)) :=
  match prFind s with
  | none => Except.ok none
  | some (a, b) =>
    if 65535 < digitsVal a then Except.error RustPanic.unwrapFailed
    else if 65535 < digitsVal b then Except.error RustPanic.unwrapFailed
    else
      let p1 := digitsVal a
      let p2 := digitsVal b
      Except.ok (some (if p2 < p1 then (p2, p1) else (p1, p2)))

/-- Model of `DeployOptions` (templates.rs). -/
structure DeployOptions : Type where
  mode : Option (List Char)
  replicas : Option Nat
  deriving DecidableEq, Repr

/-- Model of `ComposeServiceFragment` (templates.rs); the `environment` map
is carried as an association list, its ordering is never observed. -/
structure ComposeServiceFragment : Type where
  image : List Char
  platform : Option (List Char)
  restart : Option (List Char)
  depends_on : Option (List (List Char))
  volumes : Option (List (List Char))
  environment : Option (List (List Char × List Char))
  ports : Option (List PortMapping)
  deploy : Option DeployOptions
  deriving DecidableEq, Repr

/-- Model of `ComposeService` (templates.rs). -/
structure ComposeService : Type where
  name : List Char
  image : List Char
  fragment : ComposeServiceFragment
  deriving DecidableEq, Repr

/-- Model of `ComposeServiceFragment::get_version`. -/
def ComposeServiceFragment.get_version (f : ComposeServiceFragment) : Option ImageVersion :=
  (ImageVersion.new f.image).toOption

/-- Model of `ComposeServiceFragment::get_image_name`. -/
def ComposeServiceFragment.get_image_name (f : ComposeServiceFragment) : Option (List Char) :=
  (ImageVersion.new f.image).toOption.map ImageVersion.get_without_version

/-- Model of `ComposeService::get_dependencies`: the `depends_on` entries in
order, or nothing. -/
def ComposeService.get_dependencies (s : ComposeService) : List (List Char) :=
  match s.fragment.depends_on with
  | some i => i
  | none => []

/-- Model of `ComposeService::fragment_using_version`: when both the argument
and the template's own parsed image version are present, the fragment with
its image re-rendered at the argument version; otherwise the fragment
unchanged. -/
def ComposeService.fragment_using_version (s : ComposeService) (version : Option (List Char)) :
    ComposeServiceFragment :=
  match version, s.fragment.get_version with
  | some v, some current =>
    { s.fragment with image := ImageVersion.get ⟨current.name, some v, current.repository⟩ }
  | _, _ => s.fragment

/-- Model of `ComposeServiceMap` (templates.rs): the template catalog keyed
by file stem. -/
structure ComposeServiceMap : Type where
  templates : List (List Char × ComposeService)
  deriving DecidableEq, Repr

/-- Model of `ComposeServiceMap::get_service_fragment`. -/
def ComposeServiceMap.get_service_fragment (m : ComposeServiceMap) (service : List Char) :
    Option ComposeService :=
  alookup m.templates service

/-- The port mappings of a template's fragment, or nothing (the
`if let Some(p) = service.fragment.ports` guard in `ComposeServiceMap::new`). -/
def portsOf (s : ComposeService) : List PortMapping :=
  match s.fragment.ports with
  | some p => p
  | none => []

/-- The (source port, service name) pairs pushed by the port scan of
`ComposeServiceMap::new`, in template order: one entry per port mapping with
a defined source. -/
def port_entries : List ComposeService → List (Nat × List Char)
  | [] => []
  | s :: rest =>
    (portsOf s).filterMap (fun pm => pm.source.map (fun p => (p, s.name))) ++ port_entries rest

/-- The `target_ports` vector for one source port: the service names pushed
for key `p`, in push order. -/
def target_port_names (ts : List ComposeService) (p : Nat) : List (List Char) :=
  (port_entries ts).filterMap (fun e => if e.1 = p then some e.2 else none)

/-- The `assigned_ports` set of `ComposeServiceMap::new`, as the list of all
claimed source ports (membership is the set). -/
def assigned_ports (ts : List ComposeService) : List Nat :=
  (port_entries ts).map Prod.fst

/-- The distinct source ports claimed by more than one push, i.e. the keys of
`target_ports` whose vector has length above one (the conflicts reported by
`ComposeServiceMap::new`). -/
def conflicting_ports (ts : List ComposeService) : List Nat :=
  (assigned_ports ts).dedup.filter (fun p => 1 < (target_port_names ts p).length)

/-- The free-port list reported by `ComposeServiceMap::new` for a configured
range: ports of `lo..=hi` not claimed by any template, truncated to the
number of conflicting ports. -/
def free_ports (ts : List ComposeService) (lo hi : Nat) : List Nat :=
  ((List.range' lo (hi + 1 - lo)).filter
    (fun p => !(decide (p ∈ assigned_ports ts)))).take (conflicting_ports ts).length

/-- Model of `config.rs::Error` (the variants reachable from dependency
resolution; the file-reading variants carry no resolution logic). -/
inductive Error : Type where
  | NotFound (input : List Char)
  | ScenarioDeps (scenario : List Char) (source : Error)
  | ServiceDeps (service : List Char) (source : Error)
  deriving DecidableEq, Repr

/-- Model of `HandelConfig` (config.rs): the fields the composition core
reads (the reference-feed and volume descriptors are opaque I/O
configuration). -/
structure HandelConfig : Type where
  template_folder_path : List Char
  port_range : Option (Nat × Nat)
  scenarios : List (List Char × List (List Char))
  deriving DecidableEq, Repr

/-- Model of `HandelConfig::scenario_services`: the member list of a
scenario, or the empty list for an unknown name. -/
def HandelConfig.scenario_services (cfg : HandelConfig) (sc : List Char) : List (List Char) :=
  match alookup cfg.scenarios sc with
  | some l => l
  | none => []

/-- Model of `HandelConfig::has_scenario`. -/
def HandelConfig.has_scenario (cfg : HandelConfig) (sc : List Char) : Bool :=
  (alookup cfg.scenarios sc).isSome

/-- The visited map of the resolver: service name to template. -/
abbrev SvcMap : Type :=
  List (List Char × ComposeService)

/-- One pass of the scenario-member loop of `build_services_recursive`
(config.rs): members already visited are skipped, the others are resolved by
`step` with failures wrapped in `ScenarioDeps` naming the member.  `none`
models exhausted recursion fuel. -/
def run_members (step : List Char → SvcMap → Option (Except Error SvcMap)) :
    List (List Char) → SvcMap → Option (Except Error SvcMap)
  | [], svcs => some (Except.ok svcs)
  | s :: rest, svcs =>
    match alookup svcs s with
    | some _ => run_members step rest svcs
    | none =>
      match step s svcs with
      | none => none
      | some (Except.error e) => some (Except.error (Error.ScenarioDeps s e))
      | some (Except.ok svcs2) => run_members step rest svcs2

/-- One pass of the dependency loop of `build_services_recursive`
(config.rs): a dependency neither visited nor known as a template is skipped;
otherwise it is inserted and resolved by `step` with failures wrapped in
`ServiceDeps` naming the dependency. -/
def run_deps (templates : ComposeServiceMap)
    (step : List Char → SvcMap → Option (Except Error SvcMap)) :
    List (List Char) → SvcMap → Option (Except Error SvcMap)
  | [], svcs => some (Except.ok svcs)
  | d :: rest, svcs =>
    match alookup svcs d, alookup templates.templates d with
    | none, some tf =>
      match step d (insertA svcs d tf) with
      | none => none
      | some (Except.error e) => some (Except.error (Error.ServiceDeps d e))
      | some (Except.ok svcs2) => run_deps templates step rest svcs2
    | _, _ => run_deps templates step rest svcs

/-- Model of `HandelConfig::build_services_recursive` (config.rs), with an
explicit recursion-depth fuel: `none` means the fuel bound was hit before the
source's unbounded recursion returned, so a result of `none` at every fuel is
non-termination of the source. -/
def build_services_recursive (cfg : HandelConfig) (templates : ComposeServiceMap) :
    Nat → List Char → SvcMap → Option (Except Error SvcMap)
  | 0, _, _ => none
  | Nat.succ fuel, parent, svcs =>
    match alookup templates.templates parent with
    | some f =>
      run_deps templates (build_services_recursive cfg templates fuel)
        (ComposeService.get_dependencies f) (insertA svcs parent f)
    | none =>
      match alookup cfg.scenarios parent with
      | some _ =>
        run_members (build_services_recursive cfg templates fuel)
          (cfg.scenario_services parent) svcs
      | none => some (Except.error (Error.NotFound parent))

/-- Lexicographic byte order on names, the `Ord` instance `ComposeService`
sorts by (`self.name.cmp(&other.name)`; UTF-8 byte order equals codepoint
order). -/
def strLe : List Char → List Char → Bool
  | [], _ => true
  | _ :: _, [] => false
  | a :: xs, b :: ys =>
    if a.toNat < b.toNat then true
    else if b.toNat < a.toNat then false
    else strLe xs ys

/-- The sorting relation of `svcs_list.sort()`: by service name. -/
def csLe (a b : ComposeService) : Prop :=
  strLe a.name b.name = true

instance : DecidableRel csLe := fun a b =>
  inferInstanceAs (Decidable (strLe a.name b.name = true))

/-- Model of `HandelConfig::build_service_list` (config.rs): resolve the
scenario, wrap any failure naming it, and return the visited templates sorted
by name.  Fuel as in `build_services_recursive`. -/
def build_service_list (cfg : HandelConfig) (templates : ComposeServiceMap) (fuel : Nat)
    (sc : List Char) : Option (Except Error (List ComposeService)) :=
  match build_services_recursive cfg templates fuel sc [] with
  | none => none
  | some (Except.error e) => some (Except.error (Error.ScenarioDeps sc e))
  | some (Except.ok svcs) =>
    some (Except.ok (List.insertionSort csLe (svcs.map Prod.snd)))

/-- Model of `RunningService` (reference.rs): one reference-feed entry. -/
structure RunningService : Type where
  name : List Char
  version : List Char
  deriving DecidableEq, Repr

/-- Model of `LocalContainerImage` (images.rs): the fields the composition
core reads (`created_at`, `id` and `size` only steer the external loader's
filtering, which happens before this core runs). -/
structure LocalContainerImage : Type where
  repository : List Char
  tag : List Char
  deriving DecidableEq, Repr

/-- Model of `ContainerImage` (images.rs). -/
structure ContainerImage : Type where
  name : List Char
  container : LocalContainerImage
  deriving DecidableEq, Repr

/-- Model of `ContainerImage::version`: the record's tag. -/
def ContainerImage.version (c : ContainerImage) : List Char :=
  c.container.tag

/-- Modelled from the spec: the getter `ContainerImage::repository` that
`DockerCompose::generate` uses as lookup key is not among the source files
(only its call site in compose.rs line 43 is).  Per the spec, a
`LocalImageRecord` is matched by "the service's declared image repository
string (exact match on the full image-without-tag identity)", i.e. the key is
the record's `repository` field. -/
def ContainerImage.repository (c : ContainerImage) : List Char :=
  c.container.repository

/-- A lookup table built by folding `HashMap::insert` over a slice, the way
`DockerCompose::generate` builds both of its lookups (a later duplicate key
overwrites an earlier one). -/
def build_lookup {α : Type} (key : α → List Char) (l : List α) : List (List Char × α) :=
  l.foldl (fun acc x => insertA acc (key x) x) []

/-- The version precedence chain computed inside the fold of
`DockerCompose::generate` (compose.rs lines 64-67), hoisted into a
definition: the local image under the service's image-without-tag string,
else the running service under the service name, else under the bare image
name, else the version embedded in the template's own image string. -/
def resolve_version (container_lookup : List (List Char × ContainerImage))
    (running_svc_lookup : List (List Char × RunningService)) (s : ComposeService) :
    Option (List Char) :=
  match s.fragment.get_version with
  | none => none
  | some image_version =>
    ((((alookup container_lookup s.image).map ContainerImage.version).orElse
      (fun _ => (alookup running_svc_lookup s.name).map RunningService.version)).orElse
      (fun _ => (alookup running_svc_lookup image_version.get_name).map
        RunningService.version)).orElse
      (fun _ => image_version.get_version)

/-- The fold of `DockerCompose::generate` over the resolved services: a
service whose image does not parse is skipped with a warning, every other
service is emitted under its name with the fragment re-versioned through the
precedence chain. -/
def gen_services (container_lookup : List (List Char × ContainerImage))
    (running_svc_lookup : List (List Char × RunningService)) :
    List ComposeService → List (List Char × ComposeServiceFragment) →
      List (List Char × ComposeServiceFragment)
  | [], acc => acc
  | s :: rest, acc =>
    match s.fragment.get_version with
    | none => gen_services container_lookup running_svc_lookup rest acc
    | some _ =>
      gen_services container_lookup running_svc_lookup rest
        (insertA acc s.name
          (s.fragment_using_version (resolve_version container_lookup running_svc_lookup s)))

/-- Model of `DockerCompose` (compose.rs): the manifest document. -/
structure DockerCompose : Type where
  version : List Char
  services : List (List Char × ComposeServiceFragment)
  deriving DecidableEq, Repr

/-- Model of `DockerCompose::generate` up to YAML serialization: both lookup
tables are built, then every resolvable service is emitted into the
`services` mapping of a document with schema marker `"3"` (the operator log
lines and the final `serde_yaml::to_string` are not modelled). -/
def DockerCompose.generate (svcs : List ComposeService) (running : List RunningService)
    (localImages : List ContainerImage) : DockerCompose :=
  let running_svc_lookup := build_lookup RunningService.name running
  let container_lookup := build_lookup ContainerImage.repository localImages
  { version := chars ("3"),
    services := gen_services container_lookup running_svc_lookup svcs [] }

/-- A fragment with only an image and optionally dependencies, as the worked
examples use. -/
def plainFragment (img : List Char) (deps : Option (List (List Char))) :
    ComposeServiceFragment :=
  { image := img, platform := none, restart := none, depends_on := deps,
    volumes := none, environment := none, ports := none, deploy := none }

/-- The spec's worked version-precedence example: template `content-repo`
with image `registry/contentrepo:1.0.423` (the catalog stores the
image-without-tag string in the `image` field, as `ComposeServiceMap::new`
does). -/
def exContentRepo : ComposeService :=
  { name := chars ("content-repo"),
    image := chars ("registry/contentrepo"),
    fragment := plainFragment (chars ("registry/contentrepo:1.0.423")) none }

/-- The spec's worked example: a local image record for
`registry/contentrepo` tagged `1.0.425`. -/
def exLocalImage : ContainerImage :=
  { name := chars ("contentrepo"),
    container := { repository := chars ("registry/contentrepo"), tag := chars ("1.0.425") } }

/-- The spec's worked example: a running-service entry
`{name: "contentrepo", version: "1.0.500"}`. -/
def exRunning : RunningService :=
  { name := chars ("contentrepo"), version := chars ("1.0.500") }

example :
    (alookup (DockerCompose.generate [exContentRepo] [exRunning] [exLocalImage]).services
        (chars ("content-repo"))).map ComposeServiceFragment.image =
      some (chars ("registry/contentrepo:1.0.425")) := by
  decide

example :
    (alookup (DockerCompose.generate
        [{ name := chars ("content-repo"),
           image := chars ("12121212121.dkr.ecr.us-east-1.amazonaws.com/contentrepo:1.0.423"),
           fragment :=
             plainFragment (chars ("12121212121.dkr.ecr.us-east-1.amazonaws.com/contentrepo:1.0.400")) none }]
        [{ name := chars ("contentrepo"), version := chars ("1.0.425") }]
        []).services (chars ("content-repo"))).map ComposeServiceFragment.image =
      some (chars ("12121212121.dkr.ecr.us-east-1.amazonaws.com/contentrepo:1.0.425")) := by
  decide

/-- The self-referencing scenario table of the non-termination analysis:
`scenarios: {a: [a]}` over an empty template catalog. -/
def cycConfig : HandelConfig :=
  { template_folder_path := [], port_range := none,
    scenarios := [(chars ("a"), [chars ("a")])] }

/-- An empty template catalog. -/
def emptyTemplates : ComposeServiceMap :=
  { templates := [] }

example : build_services_recursive cycConfig emptyTemplates 7 (chars ("a")) [] = none := by
  decide

/-- The diamond dependency catalog: `a` depends on `b` and `c`, both of which
depend on `d`. -/
def diamondTemplates : ComposeServiceMap :=
  { templates :=
      [ (chars ("a"),
         { name := chars ("a"), image := chars ("img"),
           fragment := plainFragment (chars ("img:1")) (some [chars ("b"), chars ("c")]) }),
        (chars ("b"),
         { name := chars ("b"), image := chars ("img"),
           fragment := plainFragment (chars ("img:1")) (some [chars ("d")]) }),
        (chars ("c"),
         { name := chars ("c"), image := chars ("img"),
           fragment := plainFragment (chars ("img:1")) (some [chars ("d")]) }),
        (chars ("d"),
         { name := chars ("d"), image := chars ("img"),
           fragment := plainFragment (chars ("img:1")) none }) ] }

/-- A configuration whose scenario `s` pulls in the diamond root `a`. -/
def diamondConfig : HandelConfig :=
  { template_folder_path := [], port_range := none,
    scenarios := [(chars ("s"), [chars ("a")])] }

example :
    (build_service_list diamondConfig diamondTemplates 10 (chars ("s"))).map
        (Except.map (List.map ComposeService.name)) =
      some (Except.ok [chars ("a"), chars ("b"), chars ("c"), chars ("d")]) := by
  decide

example :
    build_service_list diamondConfig diamondTemplates 10 (chars ("zz")) =
      some (Except.error (Error.ScenarioDeps (chars ("zz")) (Error.NotFound (chars ("zz"))))) := by
  decide

example : PortMapping.deserialize (chars ("99999")) = Except.ok ⟨none, 0⟩ := by decide

example : PortMapping.deserialize (chars ("70000:8080")) = Except.ok ⟨some 0, 8080⟩ := by decide

example : PortMapping.deserialize (chars ("121:343")) = Except.ok ⟨some 121, 343⟩ := by decide

example : PortMapping.deserialize (chars ("212")) = Except.ok ⟨none, 212⟩ := by decide

example : de_port_range (chars ("1234-5678")) = Except.ok (some (1234, 5678)) := by decide

example : de_port_range (chars ("5678-1234")) = Except.ok (some (1234, 5678)) := by decide

example : de_port_range (chars ("-5678")) = Except.ok none := by decide

example : de_port_range (chars ("5678-")) = Except.ok none := by decide

example : de_port_range (chars ("70000-80000")) = Except.error RustPanic.unwrapFailed := by decide

/-- A template with the sourceless port mappings removed (the mappings the
claim says never participate in conflict detection). -/
def dropSourceless (s : ComposeService) : ComposeService :=
  { s with fragment := { s.fragment with
      ports := some ((portsOf s).filter (fun pm => pm.source.isSome)) } }

/-- A template claiming host port 8080, for the conflict example. -/
def exPortA : ComposeService :=
  { name := chars ("svc-a"), image := chars ("img"),
    fragment := { plainFragment (chars ("img:1")) none with
      ports := some [⟨some 8080, 80⟩] } }

/-- A second template claiming host port 8080 (and one sourceless mapping,
which must not matter). -/
def exPortB : ComposeService :=
  { name := chars ("svc-b"), image := chars ("img"),
    fragment := { plainFragment (chars ("img:1")) none with
      ports := some [⟨none, 9000⟩, ⟨some 8080, 81⟩] } }

/-- The resolver's visited-map invariant: keys are distinct and every stored
template's name is its key. -/
def WfMap (m : SvcMap) : Prop :=
  (m.map Prod.fst).Nodup ∧ ∀ p ∈ m, (Prod.snd p).name = p.1

/-- The diamond catalog's templates as the expected resolved, sorted list. -/
def diamondList : List ComposeService :=
  diamondTemplates.templates.map Prod.snd

theorem strLe_total : ∀ x y : List Char, strLe x y = true ∨ strLe y x = true
  | [], _ => Or.inl rfl
  | _ :: _, [] => Or.inr rfl
  | a :: xs, b :: ys => by
    rcases Nat.lt_trichotomy a.toNat b.toNat with h | h | h
    · left
      simp [strLe, h]
    · rcases strLe_total xs ys with ih | ih
      · left
        simp [strLe, h, ih]
      · right
        simp [strLe, h.symm, ih]
    · right
      simp [strLe, h]

theorem strLe_trans :
    ∀ x y z : List Char, strLe x y = true → strLe y z = true → strLe x z = true
  | [], _, _, _, _ => rfl
  | _ :: _, [], _, h, _ => by simp [strLe] at h
  | _ :: _, _ :: _, [], _, h => by simp [strLe] at h
  | a :: xs, b :: ys, c :: zs, h1, h2 => by
    simp only [strLe] at h1 h2 ⊢
    by_cases hab : a.toNat < b.toNat
    · by_cases hbc : b.toNat < c.toNat
      · have hac : a.toNat < c.toNat := Nat.lt_trans hab hbc
        simp [hac]
      · by_cases hcb : c.toNat < b.toNat
        · simp [hbc, hcb] at h2
        · have hac : a.toNat < c.toNat := by omega
          simp [hac]
    · by_cases hba : b.toNat < a.toNat
      · simp [hab, hba] at h1
      · by_cases hbc : b.toNat < c.toNat
        · have hac : a.toNat < c.toNat := by omega
          simp [hac]
        · by_cases hcb : c.toNat < b.toNat
          · simp [hbc, hcb] at h2
          · have hac : ¬ a.toNat < c.toNat := by omega
            have hca : ¬ c.toNat < a.toNat := by omega
            simp only [hab, hba, if_false] at h1
            simp only [hbc, hcb, if_false] at h2
            simp only [hac, hca, if_false]
            exact strLe_trans xs ys zs h1 h2

instance : IsTotal ComposeService csLe :=
  ⟨fun a b => strLe_total a.name b.name⟩

instance : IsTrans ComposeService csLe :=
  ⟨fun a b c => strLe_trans a.name b.name c.name⟩

theorem alookup_insertA_self {α : Type} (l : List (List Char × α)) (k : List Char) (v : α) :
    alookup (insertA l k v) k = some v := by
  induction l with
  | nil => simp [insertA, alookup]
  | cons p rest ih =>
    obtain ⟨k', v'⟩ := p
    by_cases h : k' = k
    · simp [insertA, h, alookup]
    · simp [insertA, h, alookup, ih]

theorem alookup_insertA_ne {α : Type} (l : List (List Char × α)) (k k' : List Char) (v : α)
    (h : k' ≠ k) : alookup (insertA l k v) k' = alookup l k' := by
  have hk : k ≠ k' := fun hh => h hh.symm
  induction l with
  | nil => simp [insertA, alookup, hk]
  | cons p rest ih =>
    obtain ⟨k0, v0⟩ := p
    by_cases h0 : k0 = k
    · subst h0
      simp [insertA, alookup, hk]
    · simp [insertA, h0, alookup, ih]

theorem alookup_mem {α : Type} (l : List (List Char × α)) (k : List Char) (v : α)
    (h : alookup l k = some v) : (k, v) ∈ l := by
  induction l with
  | nil => simp [alookup] at h
  | cons p rest ih =>
    obtain ⟨k', v'⟩ := p
    by_cases hk : k' = k
    · subst hk
      simp [alookup] at h
      simp [h]
    · simp [alookup, hk] at h
      simp [ih h]

theorem takeWhile_all {α : Type} {p : α → Bool} :
    ∀ l : List α, (∀ x ∈ l, p x = true) → l.takeWhile p = l
  | [], _ => rfl
  | x :: xs, h => by
    simp [List.takeWhile, h x (by simp), takeWhile_all xs (fun y hy => h y (by simp [hy]))]

theorem dropWhile_all {α : Type} {p : α → Bool} :
    ∀ l : List α, (∀ x ∈ l, p x = true) → l.dropWhile p = []
  | [], _ => rfl
  | x :: xs, h => by
    simp [List.dropWhile, h x (by simp), dropWhile_all xs (fun y hy => h y (by simp [hy]))]

theorem takeWhile_append_cons {α : Type} {p : α → Bool} :
    ∀ (xs : List α) (y : α) (t : List α), (∀ x ∈ xs, p x = true) → p y = false →
      (xs ++ y :: t).takeWhile p = xs
  | [], y, t, _, hy => by simp [List.takeWhile, hy]
  | x :: xs, y, t, h, hy => by
    simp [List.takeWhile, h x (by simp),
      takeWhile_append_cons xs y t (fun z hz => h z (by simp [hz])) hy]

theorem dropWhile_append_cons {α : Type} {p : α → Bool} :
    ∀ (xs : List α) (y : α) (t : List α), (∀ x ∈ xs, p x = true) → p y = false →
      (xs ++ y :: t).dropWhile p = y :: t
  | [], y, t, _, hy => by simp [List.dropWhile, hy]
  | x :: xs, y, t, h, hy => by
    simp [List.dropWhile, h x (by simp),
      dropWhile_append_cons xs y t (fun z hz => h z (by simp [hz])) hy]

/-- Claim C2: the dependency resolver does not terminate on a self-referencing
scenario.  With `scenarios: {a: [a]}` over an empty template catalog, no
recursion-depth fuel suffices: the fueled model returns the fuel-exhausted
marker `none` at every fuel, because the source code never marks a scenario
name as visited before recursing into its members (only template names enter
the visited map), contradicting the claim that resolution always returns a
result or an error. -/
theorem c2_cyclic_scenario_never_returns (fuel : Nat) :
    build_services_recursive cycConfig emptyTemplates fuel (chars ("a")) [] = none := by
  induction fuel with
  | zero => rfl
  | succ n ih =>
    have step : build_services_recursive cycConfig emptyTemplates (n + 1) (chars ("a")) [] =
        (match build_services_recursive cycConfig emptyTemplates n (chars ("a")) [] with
         | none => none
         | some (Except.error e) =>
           some (Except.error (Error.ScenarioDeps (chars ("a")) e))
         | some (Except.ok svcs2) =>
           run_members (build_services_recursive cycConfig emptyTemplates n) [] svcs2) := rfl
    rw [step, ih]

/-- Claim C2 witness: the divergence observed at a concrete fuel. -/
theorem c2_cyclic_scenario_never_returns_witness :
    build_services_recursive cycConfig emptyTemplates 9 (chars ("a")) [] = none :=
  c2_cyclic_scenario_never_returns 9

/-- Claim C5: a name that is neither a template of the catalog nor a key of
the scenario table fails with `NotFound` carrying exactly that name — both
when resolved directly (from any visited state, so also as a member of a
scenario being expanded) and through `build_service_list`, whose result is
then the error (wrapped in the `ScenarioDeps` context naming the root), so no
service list reaches the generator and no manifest is emitted. -/
theorem c5_unknown_name_not_found (cfg : HandelConfig) (templates : ComposeServiceMap)
    (nm : List Char) (ht : alookup templates.templates nm = none)
    (hs : alookup cfg.scenarios nm = none) :
    (∀ (fuel : Nat) (svcs : SvcMap),
      build_services_recursive cfg templates (fuel + 1) nm svcs =
        some (Except.error (Error.NotFound nm))) ∧
    (∀ fuel : Nat,
      build_service_list cfg templates (fuel + 1) nm =
        some (Except.error (Error.ScenarioDeps nm (Error.NotFound nm)))) := by
  constructor
  · intro fuel svcs
    simp [build_services_recursive, ht, hs]
  · intro fuel
    simp [build_service_list, build_services_recursive, ht, hs]

/-- Claim C5 witness: resolving the unknown name `zz` against the diamond
catalog fails with `NotFound "zz"`. -/
theorem c5_unknown_name_not_found_witness :
    build_service_list diamondConfig diamondTemplates 4 (chars ("zz")) =
      some (Except.error (Error.ScenarioDeps (chars ("zz"))
        (Error.NotFound (chars ("zz"))))) :=
  (c5_unknown_name_not_found diamondConfig diamondTemplates (chars ("zz"))
    (by decide) (by decide)).2 3

/-- Claim C7 counterexample: parsing `":1.0"` and `"repo/:v"` does not fail
with `ServiceName`; the unanchored regex search skips the characters that
cannot start a match and both parses succeed. -/
theorem c7_counterexample :
    ImageVersion.new (chars (":1.0")) = Except.ok ⟨chars ("1.0"), none, none⟩ ∧
    ImageVersion.new (chars ("repo/:v")) =
      Except.ok ⟨chars ("repo/"), some (chars ("v")), none⟩ :=
  ⟨by decide, by decide⟩

/-- Claim C7 amended: `ImageVersion::new` never returns the `ServiceName`
error (in every match the mandatory `svc` group is present); an image string
with an empty name before a delimiter parses by skipping characters — `":1.0"`
yields name `1.0`, `"repo/:v"` yields name `repo/` with version `v` — and a
string with no `svc` character at all (such as `":"`) fails with
`RepositoryFormat`. -/
theorem c7_service_name_unreachable :
    (∀ s msg : List Char,
      ImageVersion.new s ≠ Except.error (TemplateError.ServiceName msg)) ∧
    ImageVersion.new (chars (":1.0")) = Except.ok ⟨chars ("1.0"), none, none⟩ ∧
    ImageVersion.new (chars ("repo/:v")) =
      Except.ok ⟨chars ("repo/"), some (chars ("v")), none⟩ ∧
    ImageVersion.new (chars (":")) =
      Except.error (TemplateError.RepositoryFormat (chars (":"))) := by
  refine ⟨?_, by decide, by decide, by decide⟩
  intro s msg h
  unfold ImageVersion.new at h
  cases hf : findMatch s with
  | some iv => rw [hf] at h; exact Except.noConfusion h
  | none =>
    rw [hf] at h
    simp only [Except.error.injEq] at h
    exact TemplateError.noConfusion h

/-- Claim C8: `de_port_range` panics (so configuration loading aborts) on the
malformed range `"70000-80000"` whose numerals overflow `u16`, instead of
silently yielding no range; in-range inverted bounds are swapped and
non-matching strings do yield no range. -/
theorem c8_port_range_panic :
    de_port_range (chars ("70000-80000")) = Except.error RustPanic.unwrapFailed ∧
    de_port_range (chars ("5678-1234")) = Except.ok (some (1234, 5678)) ∧
    de_port_range (chars ("bogus")) = Except.ok none :=
  ⟨by decide, by decide, by decide⟩

theorem pmMatchHere_all_digits (d : List Char) (hd1 : d ≠ []) (hd2 : d.length ≤ 5)
    (hd3 : ∀ c ∈ d, c.isDigit = true) : pmMatchHere d = some (d, none) := by
  obtain ⟨c, rest, rfl⟩ : ∃ c rest, d = c :: rest := by
    cases d with
    | nil => exact absurd rfl hd1
    | cons c rest => exact ⟨c, rest, rfl⟩
  simp only [pmMatchHere, hd3 c (by simp), if_true, takeWhile_all _ hd3,
    List.take_of_length_le hd2, List.drop_length]

theorem pmMatchHere_digits_colon (d e : List Char) (hd1 : d ≠ []) (hd2 : d.length ≤ 5)
    (hd3 : ∀ c ∈ d, c.isDigit = true) (he1 : e ≠ []) (he2 : e.length ≤ 5)
    (he3 : ∀ c ∈ e, c.isDigit = true) :
    pmMatchHere (d ++ ':' :: e) = some (d, some e) := by
  obtain ⟨c, rest, rfl⟩ : ∃ c rest, d = c :: rest := by
    cases d with
    | nil => exact absurd rfl hd1
    | cons c rest => exact ⟨c, rest, rfl⟩
  obtain ⟨e0, erest, rfl⟩ : ∃ e0 erest, e = e0 :: erest := by
    cases e with
    | nil => exact absurd rfl he1
    | cons e0 erest => exact ⟨e0, erest, rfl⟩
  have hcolon : (':').isDigit = false := by decide
  have htw := takeWhile_append_cons (p := Char.isDigit) (c :: rest) ':' (e0 :: erest) hd3 hcolon
  have hdrop := List.drop_left (c :: rest) (':' :: e0 :: erest)
  simp only [List.cons_append] at htw hdrop ⊢
  rw [pmMatchHere]
  simp only [hd3 c (by simp), if_true, htw, List.take_of_length_le hd2, hdrop,
    he3 e0 (by simp), takeWhile_all _ he3, List.take_of_length_le he2]

/-- Claim C10: a port-mapping token whose numeral has at most five digits but
exceeds 65535 still deserializes; the out-of-range position is silently
replaced by port 0 — a single oversized numeral yields `source = none,
target = 0`, and an oversized numeral before `:` yields `source = some 0`
with the target parsed from the second numeral. -/
theorem c10_oversize_port_becomes_zero (d e : List Char)
    (hd1 : d ≠ []) (hd2 : d.length ≤ 5) (hd3 : ∀ c ∈ d, c.isDigit = true)
    (hd4 : 65535 < digitsVal d)
    (he1 : e ≠ []) (he2 : e.length ≤ 5) (he3 : ∀ c ∈ e, c.isDigit = true) :
    PortMapping.deserialize d = Except.ok ⟨none, 0⟩ ∧
    PortMapping.deserialize (d ++ ':' :: e) =
      Except.ok ⟨some 0, parse_u16_or_zero e⟩ := by
  have hm1 := pmMatchHere_all_digits d hd1 hd2 hd3
  have hm2 := pmMatchHere_digits_colon d e hd1 hd2 hd3 he1 he2 he3
  have hzero : parse_u16_or_zero d = 0 := by
    simp [parse_u16_or_zero, Nat.not_le.mpr hd4]
  obtain ⟨c, rest, rfl⟩ : ∃ c rest, d = c :: rest := by
    cases d with
    | nil => exact absurd rfl hd1
    | cons c rest => exact ⟨c, rest, rfl⟩
  simp only [List.cons_append] at hm2 ⊢
  constructor
  · simp only [PortMapping.deserialize, pmFind, hm1, hzero]
  · simp only [PortMapping.deserialize, pmFind, hm2, hzero]

/-- Claim C10 witness: the claim's own example tokens `"99999"` and
`"70000:8080"`. -/
theorem c10_oversize_port_becomes_zero_witness :
    PortMapping.deserialize (chars ("99999")) = Except.ok ⟨none, 0⟩ ∧
    PortMapping.deserialize (chars ("70000") ++ ':' :: chars ("8080")) =
      Except.ok ⟨some 0, parse_u16_or_zero (chars ("8080"))⟩ :=
  ⟨(c10_oversize_port_becomes_zero (chars ("99999")) (chars ("8080")) (by decide) (by decide)
      (by decide) (by decide) (by decide) (by decide) (by decide)).1,
   (c10_oversize_port_becomes_zero (chars ("70000")) (chars ("8080")) (by decide) (by decide)
      (by decide) (by decide) (by decide) (by decide) (by decide)).2⟩

/-- Claim C9: the fragment emitted for a resolved service equals the
template's fragment on every field except `image`; with a resolved version
the image is the template's parsed image reference re-rendered at that
version, and with no resolved version the fragment (its original image
string included) is returned unchanged. -/
theorem c9_fragment_frame (s : ComposeService) (iv : ImageVersion) (v : Option (List Char))
    (h : s.fragment.get_version = some iv) :
    ((s.fragment_using_version v).platform = s.fragment.platform ∧
     (s.fragment_using_version v).restart = s.fragment.restart ∧
     (s.fragment_using_version v).depends_on = s.fragment.depends_on ∧
     (s.fragment_using_version v).volumes = s.fragment.volumes ∧
     (s.fragment_using_version v).environment = s.fragment.environment ∧
     (s.fragment_using_version v).ports = s.fragment.ports ∧
     (s.fragment_using_version v).deploy = s.fragment.deploy) ∧
    (s.fragment_using_version v).image =
      (match v with
       | some ver => ImageVersion.get ⟨iv.name, some ver, iv.repository⟩
       | none => s.fragment.image) := by
  cases v with
  | none => simp [ComposeService.fragment_using_version]
  | some ver => simp [ComposeService.fragment_using_version, h]

/-- Claim C9 witness: the frame property at the spec's worked example with
resolved version `1.0.425`. -/
theorem c9_fragment_frame_witness :
    ((exContentRepo.fragment_using_version (some (chars ("1.0.425")))).platform =
        exContentRepo.fragment.platform ∧
     (exContentRepo.fragment_using_version (some (chars ("1.0.425")))).restart =
        exContentRepo.fragment.restart ∧
     (exContentRepo.fragment_using_version (some (chars ("1.0.425")))).depends_on =
        exContentRepo.fragment.depends_on ∧
     (exContentRepo.fragment_using_version (some (chars ("1.0.425")))).volumes =
        exContentRepo.fragment.volumes ∧
     (exContentRepo.fragment_using_version (some (chars ("1.0.425")))).environment =
        exContentRepo.fragment.environment ∧
     (exContentRepo.fragment_using_version (some (chars ("1.0.425")))).ports =
        exContentRepo.fragment.ports ∧
     (exContentRepo.fragment_using_version (some (chars ("1.0.425")))).deploy =
        exContentRepo.fragment.deploy) ∧
    (exContentRepo.fragment_using_version (some (chars ("1.0.425")))).image =
      ImageVersion.get ⟨chars ("contentrepo"), some (chars ("1.0.425")),
        some (chars ("registry"))⟩ :=
  c9_fragment_frame exContentRepo
    ⟨chars ("contentrepo"), some (chars ("1.0.423")), some (chars ("registry"))⟩
    (some (chars ("1.0.425"))) (by decide)

theorem mem_port_entries (ts : List ComposeService) (s : ComposeService) (pm : PortMapping)
    (p : Nat) (hs : s ∈ ts) (hpm : pm ∈ portsOf s) (hsrc : pm.source = some p) :
    (p, s.name) ∈ port_entries ts := by
  induction ts with
  | nil => simp at hs
  | cons t rest ih =>
    simp only [port_entries, List.mem_append]
    rcases List.mem_cons.mp hs with h | h
    · subst h
      exact Or.inl (List.mem_filterMap.mpr ⟨pm, hpm, by simp [hsrc]⟩)
    · exact Or.inr (ih h)

theorem mem_target_port_names (ts : List ComposeService) (p : Nat) (n : List Char)
    (h : (p, n) ∈ port_entries ts) : n ∈ target_port_names ts p :=
  List.mem_filterMap.mpr ⟨(p, n), h, by simp⟩

theorem two_mem_one_lt_length {α : Type} (l : List α) (a b : α) (ha : a ∈ l) (hb : b ∈ l)
    (hab : a ≠ b) : 1 < l.length := by
  cases l with
  | nil => simp at ha
  | cons x xs =>
    cases xs with
    | nil =>
      simp at ha hb
      exact absurd (ha.trans hb.symm) hab
    | cons y ys =>
      simp only [List.length_cons]
      omega

theorem filterMap_source_filter (nm : List Char) :
    ∀ l : List PortMapping,
      (l.filter (fun pm => pm.source.isSome)).filterMap
          (fun pm => pm.source.map (fun p => (p, nm))) =
        l.filterMap (fun pm => pm.source.map (fun p => (p, nm)))
  | [] => rfl
  | pm :: pms => by
    cases hsrc : pm.source with
    | none =>
      simp [List.filter_cons, List.filterMap_cons, hsrc, filterMap_source_filter nm pms]
    | some q =>
      simp [List.filter_cons, List.filterMap_cons, hsrc, filterMap_source_filter nm pms]

/-- Claim C4: a source port declared by port mappings of two differently
named services of the catalog is among the reported conflicts; mappings with
no source port never participate in the scan (removing them changes no port
entry); and with a configured host port range every reported free port lies
in the range and is claimed by no template, with at most as many free ports
listed as there are conflicting ports. -/
theorem c4_port_conflict_detection :
    (∀ (ts : List ComposeService) (p : Nat) (s1 s2 : ComposeService),
      s1 ∈ ts → s2 ∈ ts → s1.name ≠ s2.name →
      (∃ pm ∈ portsOf s1, pm.source = some p) →
      (∃ pm ∈ portsOf s2, pm.source = some p) →
      p ∈ conflicting_ports ts) ∧
    (∀ ts : List ComposeService,
      port_entries (ts.map dropSourceless) = port_entries ts) ∧
    (∀ (ts : List ComposeService) (lo hi : Nat),
      (∀ q ∈ free_ports ts lo hi, lo ≤ q ∧ q ≤ hi ∧ q ∉ assigned_ports ts) ∧
      (free_ports ts lo hi).length ≤ (conflicting_ports ts).length) := by
  refine ⟨?_, ?_, ?_⟩
  · intro ts p s1 s2 h1 h2 hne hd1 hd2
    obtain ⟨pm1, hpm1, hsrc1⟩ := hd1
    obtain ⟨pm2, hpm2, hsrc2⟩ := hd2
    have he1 := mem_port_entries ts s1 pm1 p h1 hpm1 hsrc1
    have he2 := mem_port_entries ts s2 pm2 p h2 hpm2 hsrc2
    have hn1 := mem_target_port_names ts p s1.name he1
    have hn2 := mem_target_port_names ts p s2.name he2
    have hlen := two_mem_one_lt_length _ _ _ hn1 hn2 hne
    have hass : p ∈ assigned_ports ts := List.mem_map.mpr ⟨(p, s1.name), he1, rfl⟩
    exact List.mem_filter.mpr ⟨List.mem_dedup.mpr hass, by simpa using hlen⟩
  · intro ts
    induction ts with
    | nil => rfl
    | cons s rest ih =>
      simp only [List.map_cons, port_entries, ih]
      have hname : (dropSourceless s).name = s.name := rfl
      have hports : portsOf (dropSourceless s) =
          (portsOf s).filter (fun pm => pm.source.isSome) := rfl
      rw [hname, hports, filterMap_source_filter]
  · intro ts lo hi
    constructor
    · intro q hq
      have h1 : q ∈ (List.range' lo (hi + 1 - lo)).filter
          (fun p => !(decide (p ∈ assigned_ports ts))) := List.take_subset _ _ hq
      have h2 := List.mem_filter.mp h1
      have h3 := List.mem_range'_1.mp h2.1
      refine ⟨h3.1, by omega, ?_⟩
      simpa using h2.2
    · exact List.length_take_le _ _

/-- Claim C4 witness: the spec's example — two templates both declaring
source port 8080 are reported as conflicting. -/
theorem c4_port_conflict_detection_witness :
    8080 ∈ conflicting_ports [exPortA, exPortB] :=
  c4_port_conflict_detection.1 [exPortA, exPortB] 8080 exPortA exPortB
    (by decide) (by decide) (by decide)
    ⟨⟨some 8080, 80⟩, by decide, rfl⟩ ⟨⟨some 8080, 81⟩, by decide, rfl⟩

theorem gen_services_not_mem (cl : List (List Char × ContainerImage))
    (rl : List (List Char × RunningService)) (k : List Char) :
    ∀ (svcs : List ComposeService) (acc : List (List Char × ComposeServiceFragment)),
      k ∉ svcs.map ComposeService.name →
      alookup (gen_services cl rl svcs acc) k = alookup acc k
  | [], _, _ => rfl
  | s :: rest, acc, h => by
    have hks : k ≠ s.name := fun hh => h (by simp [hh])
    have hkr : k ∉ rest.map ComposeService.name := fun hh => h (by simp [hh])
    cases hv : s.fragment.get_version with
    | none =>
      simp only [gen_services, hv]
      exact gen_services_not_mem cl rl k rest acc hkr
    | some iv =>
      simp only [gen_services, hv]
      rw [gen_services_not_mem cl rl k rest _ hkr, alookup_insertA_ne _ _ _ _ hks]

theorem gen_services_mem (cl : List (List Char × ContainerImage))
    (rl : List (List Char × RunningService)) :
    ∀ (svcs : List ComposeService) (acc : List (List Char × ComposeServiceFragment))
      (s : ComposeService),
      (svcs.map ComposeService.name).Nodup → s ∈ svcs →
      s.fragment.get_version.isSome = true →
      alookup (gen_services cl rl svcs acc) s.name =
        some (s.fragment_using_version (resolve_version cl rl s))
  | [], _, s, _, hs, _ => by simp at hs
  | t :: rest, acc, s, hnd, hs, hv => by
    rw [List.map_cons] at hnd
    rcases List.mem_cons.mp hs with rfl | hmem
    · obtain ⟨iv, hiv⟩ := Option.isSome_iff_exists.mp hv
      have hnotin : s.name ∉ rest.map ComposeService.name := (List.nodup_cons.mp hnd).1
      simp only [gen_services, hiv]
      rw [gen_services_not_mem cl rl s.name rest _ hnotin, alookup_insertA_self]
    · have hnd' : (rest.map ComposeService.name).Nodup := (List.nodup_cons.mp hnd).2
      cases hv2 : t.fragment.get_version with
      | none =>
        simp only [gen_services, hv2]
        exact gen_services_mem cl rl rest acc s hnd' hmem hv
      | some _ =>
        simp only [gen_services, hv2]
        exact gen_services_mem cl rl rest _ s hnd' hmem hv

/-- Claim C1: for every resolved service with a parseable image, the emitted
fragment is the template's fragment re-versioned through the precedence chain
`resolve_version` — local image record keyed by the full image-without-tag
string first, then the running entry named like the service's catalog key,
then the running entry named like the bare image name, then the version
embedded in the template's image, otherwise none — and on the spec's worked
example the local-image match wins and the emitted image is
`registry/contentrepo:1.0.425`. -/
theorem c1_version_precedence :
    (∀ (svcs : List ComposeService) (running : List RunningService)
       (localImages : List ContainerImage) (s : ComposeService),
      (svcs.map ComposeService.name).Nodup → s ∈ svcs →
      s.fragment.get_version.isSome = true →
      alookup (DockerCompose.generate svcs running localImages).services s.name =
        some (s.fragment_using_version
          (resolve_version (build_lookup ContainerImage.repository localImages)
            (build_lookup RunningService.name running) s))) ∧
    (alookup (DockerCompose.generate [exContentRepo] [exRunning] [exLocalImage]).services
        (chars ("content-repo"))).map ComposeServiceFragment.image =
      some (chars ("registry/contentrepo:1.0.425")) := by
  constructor
  · intro svcs running localImages s hnd hs hv
    exact gen_services_mem _ _ svcs [] s hnd hs hv
  · decide

/-- Claim C1 witness: the general statement applied to the spec's worked
example. -/
theorem c1_version_precedence_witness :
    alookup (DockerCompose.generate [exContentRepo] [exRunning] [exLocalImage]).services
        exContentRepo.name =
      some (exContentRepo.fragment_using_version
        (resolve_version (build_lookup ContainerImage.repository [exLocalImage])
          (build_lookup RunningService.name [exRunning]) exContentRepo)) :=
  c1_version_precedence.1 [exContentRepo] [exRunning] [exLocalImage] exContentRepo
    (by decide) (by decide) (by decide)

theorem mem_insertA {α : Type} (l : List (List Char × α)) (k : List Char) (v : α) :
    ∀ q ∈ insertA l k v, q = (k, v) ∨ q ∈ l := by
  induction l with
  | nil =>
    intro q hq
    simp [insertA] at hq
    simp [hq]
  | cons p rest ih =>
    obtain ⟨k0, v0⟩ := p
    intro q hq
    by_cases h0 : k0 = k
    · simp [insertA, h0] at hq
      rcases hq with rfl | hq
      · exact Or.inl rfl
      · exact Or.inr (by simp [hq])
    · simp [insertA, h0] at hq
      rcases hq with rfl | hq
      · exact Or.inr (by simp)
      · rcases ih q hq with h | h
        · exact Or.inl h
        · exact Or.inr (by simp [h])

theorem keys_insertA {α : Type} (l : List (List Char × α)) (k : List Char) (v : α) :
    ∀ x ∈ (insertA l k v).map Prod.fst, x ∈ l.map Prod.fst ∨ x = k := by
  intro x hx
  obtain ⟨q, hq, rfl⟩ := List.mem_map.mp hx
  rcases mem_insertA l k v q hq with rfl | h
  · exact Or.inr rfl
  · exact Or.inl (List.mem_map.mpr ⟨q, h, rfl⟩)

theorem keys_insertA_nodup {α : Type} (l : List (List Char × α)) (k : List Char) (v : α)
    (h : (l.map Prod.fst).Nodup) : ((insertA l k v).map Prod.fst).Nodup := by
  induction l with
  | nil => simp [insertA]
  | cons p rest ih =>
    obtain ⟨k0, v0⟩ := p
    simp only [List.map_cons, List.nodup_cons] at h
    by_cases h0 : k0 = k
    · subst h0
      have hin : insertA ((k0, v0) :: rest) k0 v = (k0, v) :: rest := by simp [insertA]
      rw [hin]
      simp only [List.map_cons, List.nodup_cons]
      exact h
    · simp only [insertA, if_neg h0, List.map_cons, List.nodup_cons]
      refine ⟨?_, ih h.2⟩
      intro hc
      rcases keys_insertA rest k v k0 hc with hin | heq
      · exact h.1 hin
      · exact h0 heq

theorem wf_insertA (m : SvcMap) (k : List Char) (v : ComposeService) (hm : WfMap m)
    (hv : v.name = k) : WfMap (insertA m k v) := by
  constructor
  · exact keys_insertA_nodup m k v hm.1
  · intro p hp
    rcases mem_insertA m k v p hp with rfl | h
    · simpa using hv
    · exact hm.2 p h

theorem run_members_wf (step : List Char → SvcMap → Option (Except Error SvcMap))
    (hstep : ∀ s mm mm', WfMap mm → step s mm = some (Except.ok mm') → WfMap mm') :
    ∀ (l : List (List Char)) (m m' : SvcMap), WfMap m →
      run_members step l m = some (Except.ok m') → WfMap m'
  | [], m, m', hm, h => by
    simp [run_members] at h
    exact h ▸ hm
  | s :: rest, m, m', hm, h => by
    simp only [run_members] at h
    cases hA : alookup m s with
    | some v =>
      simp only [hA] at h
      exact run_members_wf step hstep rest m m' hm h
    | none =>
      simp only [hA] at h
      cases hB : step s m with
      | none => simp [hB] at h
      | some r =>
        cases r with
        | error e => simp [hB] at h
        | ok m2 =>
          simp only [hB] at h
          exact run_members_wf step hstep rest m2 m' (hstep s m m2 hm hB) h

theorem run_deps_wf (templates : ComposeServiceMap)
    (hT : ∀ p ∈ templates.templates, (Prod.snd p).name = p.1)
    (step : List Char → SvcMap → Option (Except Error SvcMap))
    (hstep : ∀ s mm mm', WfMap mm → step s mm = some (Except.ok mm') → WfMap mm') :
    ∀ (l : List (List Char)) (m m' : SvcMap), WfMap m →
      run_deps templates step l m = some (Except.ok m') → WfMap m'
  | [], m, m', hm, h => by
    simp [run_deps] at h
    exact h ▸ hm
  | d :: rest, m, m', hm, h => by
    simp only [run_deps] at h
    cases hA : alookup m d with
    | some v =>
      simp only [hA] at h
      exact run_deps_wf templates hT step hstep rest m m' hm h
    | none =>
      simp only [hA] at h
      cases hB : alookup templates.templates d with
      | none =>
        simp only [hB] at h
        exact run_deps_wf templates hT step hstep rest m m' hm h
      | some tf =>
        simp only [hB] at h
        have hmf : WfMap (insertA m d tf) :=
          wf_insertA m d tf hm (hT (d, tf) (alookup_mem _ _ _ hB))
        cases hC : step d (insertA m d tf) with
        | none => simp [hC] at h
        | some r =>
          cases r with
          | error e => simp [hC] at h
          | ok m2 =>
            simp only [hC] at h
            exact run_deps_wf templates hT step hstep rest m2 m'
              (hstep d (insertA m d tf) m2 hmf hC) h

theorem build_rec_wf (cfg : HandelConfig) (templates : ComposeServiceMap)
    (hT : ∀ p ∈ templates.templates, (Prod.snd p).name = p.1) :
    ∀ (fuel : Nat) (parent : List Char) (m m' : SvcMap), WfMap m →
      build_services_recursive cfg templates fuel parent m = some (Except.ok m') → WfMap m'
  | 0, _, _, _, _, h => by simp [build_services_recursive] at h
  | Nat.succ fuel, parent, m, m', hm, h => by
    simp only [build_services_recursive] at h
    cases hA : alookup templates.templates parent with
    | some f =>
      simp only [hA] at h
      have hmf : WfMap (insertA m parent f) :=
        wf_insertA m parent f hm (hT (parent, f) (alookup_mem _ _ _ hA))
      exact run_deps_wf templates hT _
        (fun s mm mm' hmm hss => build_rec_wf cfg templates hT fuel s mm mm' hmm hss)
        _ _ _ hmf h
    | none =>
      simp only [hA] at h
      cases hB : alookup cfg.scenarios parent with
      | some l =>
        simp only [hB] at h
        exact run_members_wf _
          (fun s mm mm' hmm hss => build_rec_wf cfg templates hT fuel s mm mm' hmm hss)
          _ _ _ hm h
      | none => simp [hB] at h

/-- Claim C6: a successfully resolved scenario yields a service list with
pairwise distinct service names (a diamond-reachable service appears exactly
once) sorted ascending by name, for any catalog whose stored names match
their keys (as `ComposeServiceMap::new` guarantees). -/
theorem c6_service_list_sorted_nodup (cfg : HandelConfig) (templates : ComposeServiceMap)
    (hT : ∀ p ∈ templates.templates, (Prod.snd p).name = p.1)
    (fuel : Nat) (sc : List Char) (l : List ComposeService)
    (h : build_service_list cfg templates fuel sc = some (Except.ok l)) :
    (l.map ComposeService.name).Nodup ∧ List.Sorted csLe l := by
  unfold build_service_list at h
  cases hb : build_services_recursive cfg templates fuel sc [] with
  | none => rw [hb] at h; simp at h
  | some r =>
    cases r with
    | error e => rw [hb] at h; simp at h
    | ok svcs =>
      rw [hb] at h
      simp only [Option.some.injEq, Except.ok.injEq] at h
      subst h
      have hwf : WfMap svcs :=
        build_rec_wf cfg templates hT fuel sc [] svcs ⟨List.nodup_nil, by simp⟩ hb
      constructor
      · have hperm : List.Perm (List.insertionSort csLe (svcs.map Prod.snd))
            (svcs.map Prod.snd) :=
          List.perm_insertionSort csLe _
        rw [List.Perm.nodup_iff (hperm.map ComposeService.name)]
        have hmm : (svcs.map Prod.snd).map ComposeService.name = svcs.map Prod.fst := by
          rw [List.map_map]
          exact List.map_congr_left (fun p hp => hwf.2 p hp)
        rw [hmm]
        exact hwf.1
      · exact List.sorted_insertionSort csLe _

/-- Claim C6 witness: resolving scenario `s` over the diamond catalog yields
the duplicate-free, name-sorted list `a, b, c, d`. -/
theorem c6_service_list_sorted_nodup_witness :
    (diamondList.map ComposeService.name).Nodup ∧ List.Sorted csLe diamondList :=
  c6_service_list_sorted_nodup diamondConfig diamondTemplates (by decide) 10
    (chars ("s")) diamondList (by decide)

theorem splitFirst_not_mem {c : Char} : ∀ l : List Char, c ∉ l → splitFirst c l = none
  | [], _ => rfl
  | x :: xs, h => by
    have hx : ¬ x = c := fun hh => h (by simp [hh])
    simp [splitFirst, hx,
      splitFirst_not_mem xs (fun hh : c ∈ xs => h (List.mem_cons_of_mem x hh))]

theorem splitFirst_append_cons {c : Char} :
    ∀ (xs t : List Char), c ∉ xs → splitFirst c (xs ++ c :: t) = some (xs, t)
  | [], t, _ => by simp [splitFirst]
  | x :: xs, t, h => by
    have hx : ¬ x = c := fun hh => h (by simp [hh])
    simp [splitFirst, hx,
      splitFirst_append_cons xs t (fun hh : c ∈ xs => h (List.mem_cons_of_mem x hh))]

theorem splitFirst_eq_some {c : Char} :
    ∀ (l x y : List Char), splitFirst c l = some (x, y) → l = x ++ c :: y ∧ c ∉ x
  | [], x, y, h => by simp [splitFirst] at h
  | a :: as, x, y, h => by
    by_cases ha : a = c
    · simp only [splitFirst, if_pos ha, Option.some.injEq, Prod.mk.injEq] at h
      obtain ⟨hx, hy⟩ := h
      subst hx
      subst hy
      simp [ha]
    · simp only [splitFirst, if_neg ha] at h
      obtain ⟨pr, hpr, hxy⟩ := Option.map_eq_some'.mp h
      obtain ⟨h1, h2⟩ := splitFirst_eq_some as pr.1 pr.2 (by rw [hpr])
      obtain ⟨hx, hy⟩ := Prod.mk.injEq .. |>.mp hxy
      subst hx
      subst hy
      constructor
      · simp [h1]
      · intro hc
        rcases List.mem_cons.mp hc with h3 | h3
        · exact ha h3.symm
        · exact h2 h3

theorem splitFirst_append_left {c : Char} (l t x y : List Char)
    (h : splitFirst c l = some (x, y)) : splitFirst c (l ++ t) = some (x, y ++ t) := by
  obtain ⟨h1, h2⟩ := splitFirst_eq_some l x y h
  subst h1
  rw [List.append_assoc, List.cons_append]
  exact splitFirst_append_cons x (y ++ t) h2

theorem splitFirst_isSome {c : Char} :
    ∀ l : List Char, c ∈ l → ∃ x y, splitFirst c l = some (x, y)
  | [], h => absurd h (by simp)
  | x :: xs, h => by
    by_cases hx : x = c
    · exact ⟨[], xs, by simp [splitFirst, hx]⟩
    · have hc : c ∈ xs := by
        rcases List.mem_cons.mp h with h1 | h1
        · exact absurd h1.symm hx
        · exact h1
      obtain ⟨p, q, hpq⟩ := splitFirst_isSome xs hc
      exact ⟨x :: p, q, by simp [splitFirst, hx, hpq]⟩

theorem verSuffix_no_slash (ver : Option (List Char))
    (hver : ∀ v, ver = some v → '/' ∉ v) : '/' ∉ verSuffix ver := by
  cases ver with
  | none => simp [verSuffix]
  | some v =>
    simp only [verSuffix]
    intro hc
    rcases List.mem_cons.mp hc with h1 | h1
    · exact absurd h1.symm (by decide)
    · exact hver v rfl h1

theorem svcVer_exact (nm : List Char) (ver : Option (List Char)) (hnm : ':' ∉ nm)
    (hver : ∀ v, ver = some v → v ≠ [] ∧ '\n' ∉ v) :
    svcVer (nm ++ verSuffix ver) = (nm, ver) := by
  have hnmp : ∀ x ∈ nm, (fun c : Char => decide (¬ c = ':')) x = true := by
    intro x hx
    simp only [decide_eq_true_eq]
    exact fun hh => hnm (hh ▸ hx)
  cases ver with
  | none =>
    simp only [verSuffix, List.append_nil, svcVer]
    rw [takeWhile_all nm hnmp, dropWhile_all nm hnmp]
  | some v =>
    obtain ⟨hv1, hv2⟩ := hver v rfl
    obtain ⟨v0, vrest, rfl⟩ := List.exists_cons_of_ne_nil hv1
    have hcp : (fun c : Char => decide (¬ c = ':')) ':' = false := by simp
    have hvp : ∀ x ∈ v0 :: vrest, (fun c : Char => decide (¬ c = '\n')) x = true := by
      intro x hx
      simp only [decide_eq_true_eq]
      exact fun hh => hv2 (hh ▸ hx)
    have hv0 : ¬ v0 = '\n' := fun hh => hv2 (by simp [hh])
    simp only [verSuffix, svcVer]
    rw [takeWhile_append_cons nm ':' (v0 :: vrest) hnmp hcp,
      dropWhile_append_cons nm ':' (v0 :: vrest) hnmp hcp]
    simp only [if_neg hv0]
    rw [takeWhile_all (v0 :: vrest) hvp]

theorem matchNoRepo_exact (nm : List Char) (ver : Option (List Char))
    (hnm1 : nm ≠ []) (hnm2 : ':' ∉ nm)
    (hver : ∀ v, ver = some v → v ≠ [] ∧ '\n' ∉ v) :
    matchNoRepo (nm ++ verSuffix ver) = some ⟨nm, ver, none⟩ := by
  obtain ⟨n0, nrest, rfl⟩ := List.exists_cons_of_ne_nil hnm1
  have hn0 : ¬ n0 = ':' := fun hh => hnm2 (by simp [hh])
  have hsv := svcVer_exact (n0 :: nrest) ver hnm2 hver
  rw [List.cons_append] at hsv ⊢
  rw [matchNoRepo, if_neg hn0, hsv]

theorem findMatch_eq_of_matchAt {l : List Char} {iv : ImageVersion} (hne : l ≠ [])
    (h : matchAt l = some iv) : findMatch l = some iv := by
  cases l with
  | nil => exact absurd rfl hne
  | cons c rest => simp [findMatch, h]

theorem roundtrip_core (repo : Option (List Char)) (nm : List Char)
    (ver : Option (List Char))
    (hrepo : ∀ r, repo = some r → r ≠ [] ∧ '/' ∉ r)
    (hnm1 : nm ≠ []) (hnm2 : ':' ∉ nm)
    (hver : ∀ v, ver = some v → v ≠ [] ∧ '/' ∉ v ∧ '\n' ∉ v) :
    ∃ iv : ImageVersion, matchAt (ImageVersion.get ⟨nm, ver, repo⟩) = some iv ∧
      ImageVersion.get iv = ImageVersion.get ⟨nm, ver, repo⟩ := by
  have hver' : ∀ v, ver = some v → v ≠ [] ∧ '\n' ∉ v :=
    fun v hv => ⟨(hver v hv).1, (hver v hv).2.2⟩
  have hversl : '/' ∉ verSuffix ver := verSuffix_no_slash ver (fun v hv => (hver v hv).2.1)
  obtain ⟨n0, nrest, hnmeq⟩ := List.exists_cons_of_ne_nil hnm1
  cases repo with
  | some r =>
    obtain ⟨hr1, hr2⟩ := hrepo r rfl
    have hs : ImageVersion.get ⟨nm, ver, some r⟩ =
        r ++ '/' :: (nm ++ verSuffix ver) := by
      simp [ImageVersion.get, repoPrefix, List.append_assoc]
    have hsp : splitFirst '/' (r ++ '/' :: (nm ++ verSuffix ver)) =
        some (r, nm ++ verSuffix ver) := splitFirst_append_cons r _ hr2
    have hn0 : ¬ n0 = ':' := fun hh => hnm2 (by simp [hnmeq, hh])
    refine ⟨⟨nm, ver, some r⟩, ?_, rfl⟩
    rw [hs, matchAt, hsp]
    subst hnmeq
    rw [List.cons_append]
    have hsv := svcVer_exact (n0 :: nrest) ver hnm2 hver'
    rw [List.cons_append] at hsv
    simp [hn0, hr1, hsv, List.cons_append]
  | none =>
    have hs : ImageVersion.get ⟨nm, ver, none⟩ = nm ++ verSuffix ver := by
      simp [ImageVersion.get, repoPrefix]
    by_cases hslash : '/' ∈ nm
    · obtain ⟨a, b, hab⟩ := splitFirst_isSome nm hslash
      obtain ⟨hnmab, hna⟩ := splitFirst_eq_some nm a b hab
      have hsp : splitFirst '/' (nm ++ verSuffix ver) = some (a, b ++ verSuffix ver) :=
        splitFirst_append_left nm (verSuffix ver) a b hab
      by_cases ha : a = []
      · subst ha
        refine ⟨⟨nm, ver, none⟩, ?_, rfl⟩
        rw [hs, matchAt, hsp]
        have hmn := matchNoRepo_exact nm ver hnm1 hnm2 hver'
        cases hbv : b ++ verSuffix ver with
        | nil => simpa using hmn
        | cons c1 rest1 => simpa using hmn
      · cases hb : b with
        | cons b0 brest =>
          have hb0 : ¬ b0 = ':' := by
            intro hh
            exact hnm2 (by simp [hnmab, hb, hh])
          have hbc : ':' ∉ b0 :: brest := by
            intro hc
            exact hnm2 (by simp [hnmab, hb, hc])
          refine ⟨⟨b0 :: brest, ver, some a⟩, ?_, ?_⟩
          · rw [hs, matchAt, hsp, hb]
            have hsv := svcVer_exact (b0 :: brest) ver hbc hver'
            rw [List.cons_append] at hsv
            simp only [List.cons_append, ne_eq, ha, not_false_eq_true, hb0, and_self,
              if_true, hsv]
          · rw [hs, ImageVersion.get, repoPrefix, hnmab, hb]
            simp [List.append_assoc]
        | nil =>
          subst hb
          have hmn := matchNoRepo_exact nm ver hnm1 hnm2 hver'
          refine ⟨⟨nm, ver, none⟩, ?_, rfl⟩
          rw [hs, matchAt, hsp]
          cases ver with
          | none => simpa [verSuffix] using hmn
          | some v =>
            simp only [verSuffix, List.nil_append]
            simpa [verSuffix, ha] using hmn
    · have hnosl : '/' ∉ nm ++ verSuffix ver := by
        intro hc
        rcases List.mem_append.mp hc with h1 | h1
        · exact hslash h1
        · exact hversl h1
      have hsp : splitFirst '/' (nm ++ verSuffix ver) = none := splitFirst_not_mem _ hnosl
      refine ⟨⟨nm, ver, none⟩, ?_, rfl⟩
      rw [hs, matchAt, hsp]
      exact matchNoRepo_exact nm ver hnm1 hnm2 hver'

/-- Claim C3 counterexample: `"a:b/c:"` conforms to the grammar
`[repository/]name[:version]` as the claim states it (no repository, name
`a`, version `b/c:`), yet parsing finds repository `a:b` and name `c`,
drops the trailing `:`, and re-rendering yields `"a:b/c"`, not the input. -/
theorem c3_counterexample :
    (∃ (repo : Option (List Char)) (nm : List Char) (ver : Option (List Char)),
      (∀ r, repo = some r → r ≠ [] ∧ '/' ∉ r) ∧ nm ≠ [] ∧ ':' ∉ nm ∧
      chars ("a:b/c:") = ImageVersion.get ⟨nm, ver, repo⟩) ∧
    (ImageVersion.new (chars ("a:b/c:"))).map ImageVersion.get =
      Except.ok (chars ("a:b/c")) ∧
    chars ("a:b/c") ≠ chars ("a:b/c:") := by
  refine ⟨⟨none, chars ("a"), some (chars ("b/c:")), ?_, ?_, ?_, ?_⟩, by decide, by decide⟩
  · intro r hr
    exact Option.noConfusion hr
  · decide
  · decide
  · decide

/-- Claim C3 amended: `render(parse(s)) = s` for every string of the grammar
`[repository/]name[:version]` in which the repository (when present) is
non-empty and `/`-free, the name is non-empty and `:`-free, and the version
(when present) is non-empty and contains neither `/` nor a newline.  (Without
the extra version restriction the law fails, see the counterexample.) -/
theorem c3_roundtrip_amended (repo : Option (List Char)) (nm : List Char)
    (ver : Option (List Char))
    (hrepo : ∀ r, repo = some r → r ≠ [] ∧ '/' ∉ r)
    (hnm1 : nm ≠ []) (hnm2 : ':' ∉ nm)
    (hver : ∀ v, ver = some v → v ≠ [] ∧ '/' ∉ v ∧ '\n' ∉ v) :
    (ImageVersion.new (ImageVersion.get ⟨nm, ver, repo⟩)).map ImageVersion.get =
      Except.ok (ImageVersion.get ⟨nm, ver, repo⟩) := by
  obtain ⟨iv, hiv, hget⟩ := roundtrip_core repo nm ver hrepo hnm1 hnm2 hver
  have hne : ImageVersion.get ⟨nm, ver, repo⟩ ≠ [] := by
    obtain ⟨n0, nrest, rfl⟩ := List.exists_cons_of_ne_nil hnm1
    cases repo with
    | some r =>
      obtain ⟨hr1, _⟩ := hrepo r rfl
      obtain ⟨r0, rrest, rfl⟩ := List.exists_cons_of_ne_nil hr1
      simp [ImageVersion.get, repoPrefix]
    | none => simp [ImageVersion.get, repoPrefix]
  have hfm := findMatch_eq_of_matchAt hne hiv
  rw [ImageVersion.new, hfm]
  simp only [Except.map, Except.ok.injEq]
  exact hget

/-- Claim C3 amended witness: the round trip at the spec's own example
string `repo.example.com/api:1.0.423`. -/
theorem c3_roundtrip_amended_witness :
    (ImageVersion.new (ImageVersion.get ⟨chars ("api"), some (chars ("1.0.423")),
        some (chars ("repo.example.com"))⟩)).map ImageVersion.get =
      Except.ok (ImageVersion.get ⟨chars ("api"), some (chars ("1.0.423")),
        some (chars ("repo.example.com"))⟩) :=
  c3_roundtrip_amended (some (chars ("repo.example.com"))) (chars ("api"))
    (some (chars ("1.0.423")))
    (fun r hr => by
      constructor
      · intro hh
        rw [hh] at hr
        exact absurd (Option.some.inj hr).symm (by decide)
      · intro hc
        rw [(Option.some.inj hr).symm] at hc
        exact absurd hc (by decide))
    (by decide) (by decide)
    (fun v hv => by
      refine ⟨?_, ?_, ?_⟩
      · intro hh
        rw [hh] at hv
        exact absurd (Option.some.inj hv).symm (by decide)
      · intro hc
        rw [(Option.some.inj hv).symm] at hc
        exact absurd hc (by decide)
      · intro hc
        rw [(Option.some.inj hv).symm] at hc
        exact absurd hc (by decide))

end Handel
